/-
Verification of the GAMO-R one-max simulation core (onemax.cc, SAonemax.cc,
and the locality tool) against its natural-language specification.

The C++ code is shallowly embedded as follows:
* bit vectors (std::vector<bool>) become List Bool;
* double-precision fitness values, uniform draws and temperatures become ℚ
  (all arithmetic the program performs on the values the claims concern is
  exact in double precision, so ℚ is a faithful carrier);
* the C library function exp is an opaque parameter expf : ℚ → ℚ of each
  step function (its only property used by a claim, exp 0 = 1, is exact in
  IEEE double and is taken as a hypothesis where needed);
* the random engine is made explicit: the chosen organism index, bit index,
  per-bit mutation draws and the next uniform draw of prob_dist_ are
  arguments; SA_generation also returns whether that uniform draw was
  consumed (prob_dist_(eng_) evaluated), mirroring C++ short-circuit ||;
* phenotype_t (uint64_t) becomes ℕ: for the genome lengths the program can
  run (L ≤ 64, enforced by the asserts) no wraparound occurs;
* the C++ int accumulator that std::accumulate uses inside Sim::fitness /
  SA::fitness is modelled exactly, including the double → int truncation
  toward zero on every partial sum.
-/
import Mathlib

/-! ## Organism (onemax.cc lines 38-80, SAonemax.cc lines 32-59) -/

/-- Organism::flip (kept under the Organism namespace): bits_[idx] = bits_[idx] xor 1. -/
def Organism.flip (bits : List Bool) (idx : ℕ) : List Bool :=
  bits.set idx (!bits.getD idx false)

/-- Organism::mutate_all: flip bit i exactly when the i-th fresh uniform
draw is < p_m (onemax.cc lines 62-72). The draw stream is explicit. -/
def mutate_all (p_m : ℚ) (draws : ℕ → ℚ) (bits : List Bool) : List Bool :=
  bits.mapIdx (fun i b => if draws i < p_m then !b else b)

/-! ## Sim / SA trial engine (onemax.cc lines 96-168, SAonemax.cc 75-133) -/

/-- State of one Sim (or SA) object: the organisms' bit vectors and the
current annealing temperature.  All organisms share one fitness function in
the program, so it is passed separately to the step functions. -/
structure SimState where
  genotype : List (List Bool)
  temp : ℚ
  deriving DecidableEq, Repr

/-- Sim::SA_generation (onemax.cc lines 111-126) = SA::generation
(SAonemax.cc lines 89-108).  neworg is a copy of organism org; f0 is its
fitness before the flip (hence the incumbent fitness) and f1 after.  The
returned Bool records whether prob_dist_(eng_) was invoked: the C++
condition is f1 > f0 || prob_dist_(eng_) < exp((f1 - f0) / temp_), and ||
short-circuits, so the draw u is consumed only when f1 > f0 fails. -/
def SA_generation (expf : ℚ → ℚ) (tadj : ℚ) (fit : List Bool → ℚ)
    (st : SimState) (org bit : ℕ) (u : ℚ) : SimState × Bool :=
  let neworg := Organism.flip (st.genotype.getD org []) bit
  let f0 := fit (st.genotype.getD org [])
  let f1 := fit neworg
  if f0 < f1 then
    (⟨st.genotype.set org neworg, st.temp * tadj⟩, false)
  else if u < expf ((f1 - f0) / st.temp) then
    (⟨st.genotype.set org neworg, st.temp * tadj⟩, true)
  else
    (⟨st.genotype, st.temp * tadj⟩, true)

/-- Sim::ES_generation (onemax.cc lines 131-143): mutate-all copy of the
chosen organism, replace it only on strict fitness improvement; the
temperature field is not read or written. -/
def ES_generation (p_m : ℚ) (fit : List Bool → ℚ) (st : SimState)
    (org : ℕ) (draws : ℕ → ℚ) : SimState :=
  let incumbent := st.genotype.getD org []
  let neworg := mutate_all p_m draws incumbent
  if fit incumbent < fit neworg then
    ⟨st.genotype.set org neworg, st.temp⟩
  else
    st

/-- Iterated SA generations; each step carries its own random choices
(organism index, bit index, uniform draw). -/
def SA_run (expf : ℚ → ℚ) (tadj : ℚ) (fit : List Bool → ℚ)
    (st : SimState) (steps : List (ℕ × ℕ × ℚ)) : SimState :=
  steps.foldl (fun s c => (SA_generation expf tadj fit s c.1 c.2.1 c.2.2).1) st

/-- Sim::fitness / SA::fitness (onemax.cc lines 153-157, SAonemax.cc lines
118-122): std::accumulate(begin, end, 0, lambda).  The init literal 0 has
type int, so std::accumulate's accumulator T is int, and the double the
lambda returns is converted back to int after every element - truncation
toward zero.  truncRat models that double → int conversion. -/
def truncRat (q : ℚ) : ℤ := q.num.tdiv q.den

def Sim.fitness (fit : List Bool → ℚ) (genotype : List (List Bool)) : ℚ :=
  ((genotype.foldl (fun (acc : ℤ) o => truncRat ((acc : ℚ) + fit o)) 0 : ℤ) : ℚ)

/-- Modelled from the spec: totalFitness() is "sum of all organisms'
current fitness" with no rounding or truncation of partial sums. -/
def totalFitness (fit : List Bool → ℚ) (genotype : List (List Bool)) : ℚ :=
  (genotype.map fit).sum

/-! ## Representations (onemax.cc lines 187-224) -/

/-- std_binary_rep (onemax.cc lines 187-197): iterate from the last bit
with ret += bit << (p - 1), p counting up from 1.  The pair carries
(ret, p - 1). -/
def std_binary_rep (bits : List Bool) : ℕ :=
  (bits.foldr (fun b s => (s.1 + ((if b then 1 else 0) <<< s.2), s.2 + 1))
    ((0 : ℕ), (0 : ℕ))).1

/-- brg_rep loop body (onemax.cc lines 206-210): prev_bit = ret & 1;
ret <<= 1; ret |= bit ? prev_bit ^ 1 : prev_bit. -/
def brg_step (ret : ℕ) (b : Bool) : ℕ :=
  (ret <<< 1) ||| (if b then (ret &&& 1) ^^^ 1 else ret &&& 1)

/-- brg_rep (onemax.cc lines 200-214): ret starts as the first bit, then
the loop body runs over the remaining bits.  The C++ dereferences the first
element unconditionally, so the empty case is unreachable for L ≥ 1. -/
def brg_rep (bits : List Bool) : ℕ :=
  match bits with
  | [] => 0
  | b :: rest => rest.foldl brg_step (if b then 1 else 0)

/-- Inverse of std_binary_rep: most-significant-first bits of n, width L. -/
def toBits : ℕ → ℕ → List Bool
  | 0, _ => []
  | L + 1, n => decide (2 ^ L ≤ n) :: toBits L (n % 2 ^ L)

/-- Inverse of brg_rep: the Gray code word of n, width L, built from the
least significant end. -/
def fromGray : ℕ → ℕ → List Bool
  | 0, _ => []
  | L + 1, n => fromGray L (n / 2) ++ [decide (n / 2 % 2 ≠ n % 2)]

/-! ## One-max fitness (onemax.cc lines 254-261, SAonemax.cc 208-215) -/

/-- onemax: maxfit = (1 << bits.size()) - 1; assert(a <= maxfit);
return maxfit - abs(double(phenotype) - a).  The failed assert is modelled
as none. -/
def onemax (a : ℕ) (rep : List Bool → ℕ) (bits : List Bool) : Option ℚ :=
  let phenotype := rep bits
  let maxfit : ℚ := 2 ^ bits.length - 1
  if (a : ℚ) ≤ maxfit then some (maxfit - |(phenotype : ℚ) - (a : ℚ)|)
  else none

/-! ## Representation validator (locality tool, src/unnamed/part_000) -/

/-- is_representation (part_000 lines 35-41): std::is_permutation of the
table against std::iota(0, N), i.e. the table is a rearrangement of the
list 0, 1, ..., N-1. -/
def is_representation (N : ℕ) (rep : List ℕ) : Bool :=
  decide (rep.Perm (List.range N))

/-! ## Experiment driver statistics (onemax.cc main, lines 326-369) -/

/-- Per-trial first-passage recording, transliterating the per-generation
update gens[i] = g when sims[i].fitness() == maxfit && g < gens[i]
(onemax.cc lines 344-346).  obs lists, for g = 1, 2, ..., whether the
trial is observed at the optimum at the start of generation g; the loop
counter starts at the given g and gens starts at the budget. -/
def recordGen : List Bool → ℕ → ℕ → ℕ
  | [], _, gens => gens
  | b :: rest, g, gens => recordGen rest (g + 1) (if b = true ∧ g < gens then g else gens)

/-- Recorded generation-to-optimum of one trial after the whole run:
gens[i] is initialized to the budget and updated by recordGen over the
G observations (onemax.cc lines 326, 337-348). -/
def trialGen (generations : ℕ) (obs : List Bool) : ℕ :=
  recordGen obs 1 generations

/-- The reported mean (onemax.cc lines 363-369): keep the recorded values
strictly below the budget (std::copy_if with g < generations), then divide
their sum by their count.  The empty-division (NaN) case is none. -/
def meanGenToOpt (generations : ℕ) (trials : List (List Bool)) : Option ℚ :=
  let gens := trials.map (trialGen generations)
  let completed := gens.filter (fun g => decide (g < generations))
  if completed.length = 0 then none
  else some ((completed.sum : ℚ) / completed.length)

/-- First generation (1-based) at which a trial is observed optimal. -/
def firstPassage : List Bool → Option ℕ
  | [] => none
  | b :: rest => if b then some 1 else (firstPassage rest).map (· + 1)

/-- Modelled from the spec: the mean generation-to-optimum over exactly the
trials that reached the optimum within the generation budget, i.e. whose
first observed passage g satisfies g ≤ generations. -/
def meanGenToOpt_spec (generations : ℕ) (trials : List (List Bool)) : Option ℚ :=
  let reached := (trials.filterMap firstPassage).filter
    (fun g => decide (g ≤ generations))
  if reached.length = 0 then none
  else some ((reached.sum : ℚ) / reached.length)

/-! ## Helper lemmas about the step functions -/

lemma flip_getElem? (bits : List Bool) (i : ℕ) (h : i < bits.length) :
    (Organism.flip bits i)[i]? = some (!bits.getD i false) := by
  simp [Organism.flip, List.getElem?_set_self h]

lemma flip_ne (bits : List Bool) (i : ℕ) (h : i < bits.length) :
    Organism.flip bits i ≠ bits := by
  intro heq
  have h1 : (Organism.flip bits i)[i]? = some (!bits.getD i false) :=
    flip_getElem? bits i h
  rw [heq] at h1
  have h2 : bits[i]? = some (bits.getD i false) := by
    simp [List.getD_eq_getElem?_getD, List.getElem?_eq_getElem h]
  rw [h1] at h2
  simp at h2

lemma set_flip_ne (l : List (List Bool)) (org bit : ℕ)
    (horg : org < l.length) (hbit : bit < (l.getD org []).length) :
    l.set org (Organism.flip (l.getD org []) bit) ≠ l := by
  intro heq
  have h1 : (l.set org (Organism.flip (l.getD org []) bit))[org]?
      = some (Organism.flip (l.getD org []) bit) := by
    simp [List.getElem?_set_self horg]
  rw [heq] at h1
  have h2 : l[org]? = some (l.getD org []) := by
    simp [List.getD_eq_getElem?_getD, List.getElem?_eq_getElem horg]
  rw [h1] at h2
  exact flip_ne (l.getD org []) bit hbit (Option.some_injective _ h2.symm).symm

/-! ## C1: SA acceptance rule -/

/-- C1: in every SA generation step the candidate (single-bit-flip copy of
the chosen organism, f0 the incumbent fitness, f1 the candidate fitness)
replaces the incumbent if and only if f1 > f0 or the uniform draw u
satisfies u < exp((f1 - f0) / temperature); and the uniform draw is
consumed (second component true) exactly when f1 > f0 fails, reflecting the
short-circuit OR. -/
theorem sa_acceptance_iff (expf : ℚ → ℚ) (tadj : ℚ) (fit : List Bool → ℚ)
    (st : SimState) (org bit : ℕ) (u : ℚ)
    (horg : org < st.genotype.length)
    (hbit : bit < (st.genotype.getD org []).length) :
    ((SA_generation expf tadj fit st org bit u).1.genotype
        = st.genotype.set org (Organism.flip (st.genotype.getD org []) bit)
      ↔ (fit (st.genotype.getD org [])
            < fit (Organism.flip (st.genotype.getD org []) bit)
          ∨ u < expf ((fit (Organism.flip (st.genotype.getD org []) bit)
              - fit (st.genotype.getD org [])) / st.temp))) ∧
    ((SA_generation expf tadj fit st org bit u).2 = true
      ↔ ¬ fit (st.genotype.getD org [])
            < fit (Organism.flip (st.genotype.getD org []) bit)) := by
  by_cases h1 : fit (st.genotype.getD org [])
      < fit (Organism.flip (st.genotype.getD org []) bit)
  · refine ⟨?_, ?_⟩
    · simp only [SA_generation]
      rw [if_pos h1]
      exact ⟨fun _ => Or.inl h1, fun _ => rfl⟩
    · simp only [SA_generation]
      rw [if_pos h1]
      simpa using h1
  · by_cases h2 : u < expf ((fit (Organism.flip (st.genotype.getD org []) bit)
        - fit (st.genotype.getD org [])) / st.temp)
    · refine ⟨?_, ?_⟩
      · simp only [SA_generation]
        rw [if_neg h1, if_pos h2]
        exact ⟨fun _ => Or.inr h2, fun _ => rfl⟩
      · simp only [SA_generation]
        rw [if_neg h1, if_pos h2]
        simpa using h1
    · refine ⟨?_, ?_⟩
      · simp only [SA_generation]
        rw [if_neg h1, if_neg h2]
        refine ⟨fun h => absurd h.symm (set_flip_ne st.genotype org bit horg hbit), fun h => ?_⟩
        rcases h with h | h
        · exact absurd h h1
        · exact absurd h h2
      · simp only [SA_generation]
        rw [if_neg h1, if_neg h2]
        simpa using h1

/-- C1 witness: a concrete instantiation at a one-organism, one-bit state
in which the flip strictly improves fitness and is accepted without
consuming the uniform draw. -/
theorem sa_acceptance_iff_witness :
    (0 < (SimState.mk [[false]] 50).genotype.length) ∧
    (0 < ((SimState.mk [[false]] 50).genotype.getD 0 []).length) ∧
    (((SA_generation (fun _ => 0) (995/1000) (fun l => if l = [true] then 1 else 0)
        (SimState.mk [[false]] 50) 0 0 (1/2)).1.genotype
        = (SimState.mk [[false]] 50).genotype.set 0
            (Organism.flip ((SimState.mk [[false]] 50).genotype.getD 0 []) 0)
      ↔ ((fun l => if l = [true] then (1 : ℚ) else 0)
            ((SimState.mk [[false]] 50).genotype.getD 0 [])
            < (fun l => if l = [true] then 1 else 0)
              (Organism.flip ((SimState.mk [[false]] 50).genotype.getD 0 []) 0)
          ∨ (1/2 : ℚ) < (fun _ => (0 : ℚ))
              (((fun l => if l = [true] then (1 : ℚ) else 0)
                  (Organism.flip ((SimState.mk [[false]] 50).genotype.getD 0 []) 0)
                - (fun l => if l = [true] then (1 : ℚ) else 0)
                  ((SimState.mk [[false]] 50).genotype.getD 0 []))
                / (SimState.mk [[false]] 50).temp))) ∧
    ((SA_generation (fun _ => 0) (995/1000) (fun l => if l = [true] then 1 else 0)
        (SimState.mk [[false]] 50) 0 0 (1/2)).2 = true
      ↔ ¬ (fun l => if l = [true] then (1 : ℚ) else 0)
            ((SimState.mk [[false]] 50).genotype.getD 0 [])
            < (fun l => if l = [true] then 1 else 0)
              (Organism.flip ((SimState.mk [[false]] 50).genotype.getD 0 []) 0))) :=
  ⟨by decide, by decide,
    sa_acceptance_iff (fun _ => 0) (995/1000) (fun l => if l = [true] then 1 else 0)
      (SimState.mk [[false]] 50) 0 0 (1/2) (by decide) (by decide)⟩

/-! ## C2: ES acceptance rule -/

/-- C2: an ES generation step replaces the incumbent only when the
candidate (mutate-all copy) has strictly larger fitness: when f1 ≤ f0 the
state is unchanged; any change implies strict improvement; the
temperature is never touched and the genotype outcome does not depend on
the temperature at all (no Boltzmann term). -/
theorem es_acceptance (p_m : ℚ) (fit : List Bool → ℚ) (st : SimState)
    (org : ℕ) (draws : ℕ → ℚ) :
    (fit (mutate_all p_m draws (st.genotype.getD org []))
        ≤ fit (st.genotype.getD org []) →
      ES_generation p_m fit st org draws = st) ∧
    (ES_generation p_m fit st org draws ≠ st →
      fit (st.genotype.getD org [])
        < fit (mutate_all p_m draws (st.genotype.getD org []))) ∧
    ((ES_generation p_m fit st org draws).temp = st.temp) ∧
    (∀ t : ℚ, (ES_generation p_m fit (SimState.mk st.genotype t) org draws).genotype
      = (ES_generation p_m fit st org draws).genotype) := by
  by_cases h : fit (st.genotype.getD org [])
      < fit (mutate_all p_m draws (st.genotype.getD org []))
  · refine ⟨fun hle => absurd h (not_lt.mpr hle), fun _ => h, ?_, ?_⟩
    · simp only [ES_generation]
      rw [if_pos h]
    · intro t
      simp only [ES_generation]
      rw [if_pos h, if_pos h]
  · refine ⟨fun _ => ?_, fun hne => ?_, ?_, ?_⟩
    · simp only [ES_generation]
      rw [if_neg h]
    · exfalso
      apply hne
      simp only [ES_generation]
      rw [if_neg h]
    · simp only [ES_generation]
      rw [if_neg h]
    · intro t
      simp only [ES_generation]
      rw [if_neg h, if_neg h]

/-- C2 witness: a one-organism state where mutate-all flips the single bit
from true to false, the candidate fitness drops, and the step is the
identity on the state. -/
theorem es_acceptance_witness :
    ((fun l => if l = [true] then (1 : ℚ) else 0)
        (mutate_all (1/2) (fun _ => 0) ((SimState.mk [[true]] 50).genotype.getD 0 []))
        ≤ (fun l => if l = [true] then (1 : ℚ) else 0)
          ((SimState.mk [[true]] 50).genotype.getD 0 []) →
      ES_generation (1/2) (fun l => if l = [true] then (1 : ℚ) else 0)
        (SimState.mk [[true]] 50) 0 (fun _ => 0) = SimState.mk [[true]] 50) ∧
    (ES_generation (1/2) (fun l => if l = [true] then (1 : ℚ) else 0)
        (SimState.mk [[true]] 50) 0 (fun _ => 0) ≠ SimState.mk [[true]] 50 →
      (fun l => if l = [true] then (1 : ℚ) else 0)
          ((SimState.mk [[true]] 50).genotype.getD 0 [])
        < (fun l => if l = [true] then (1 : ℚ) else 0)
          (mutate_all (1/2) (fun _ => 0) ((SimState.mk [[true]] 50).genotype.getD 0 []))) ∧
    ((ES_generation (1/2) (fun l => if l = [true] then (1 : ℚ) else 0)
        (SimState.mk [[true]] 50) 0 (fun _ => 0)).temp = (SimState.mk [[true]] 50).temp) ∧
    (∀ t : ℚ, (ES_generation (1/2) (fun l => if l = [true] then (1 : ℚ) else 0)
        (SimState.mk (SimState.mk [[true]] 50).genotype t) 0 (fun _ => 0)).genotype
      = (ES_generation (1/2) (fun l => if l = [true] then (1 : ℚ) else 0)
        (SimState.mk [[true]] 50) 0 (fun _ => 0)).genotype) :=
  es_acceptance (1/2) (fun l => if l = [true] then (1 : ℚ) else 0)
    (SimState.mk [[true]] 50) 0 (fun _ => 0)

/-! ## C3: geometric temperature decay -/

/-- Temperature of a single SA step, independent of the branch taken. -/
lemma sa_generation_temp (expf : ℚ → ℚ) (tadj : ℚ) (fit : List Bool → ℚ)
    (st : SimState) (org bit : ℕ) (u : ℚ) :
    (SA_generation expf tadj fit st org bit u).1.temp = st.temp * tadj := by
  simp only [SA_generation]
  split
  · rfl
  · split
    · rfl
    · rfl

/-- C3: the temperature is multiplied by the decay factor exactly once per
SA generation (whatever the acceptance decision), and after n SA
generations from initial temperature T0 the temperature equals
T0 * tadj ^ n, independently of every random choice made along the way. -/
theorem sa_temperature_schedule (expf : ℚ → ℚ) (tadj : ℚ) (fit : List Bool → ℚ)
    (st : SimState) (org bit : ℕ) (u : ℚ) (steps : List (ℕ × ℕ × ℚ)) :
    ((SA_generation expf tadj fit st org bit u).1.temp = st.temp * tadj) ∧
    ((SA_run expf tadj fit st steps).temp = st.temp * tadj ^ steps.length) := by
  refine ⟨sa_generation_temp expf tadj fit st org bit u, ?_⟩
  induction steps generalizing st with
  | nil => simp [SA_run]
  | cons c rest ih =>
    have hstep := ih ((SA_generation expf tadj fit st c.1 c.2.1 c.2.2).1)
    simp only [SA_run, List.foldl_cons] at hstep ⊢
    rw [hstep, sa_generation_temp, List.length_cons, pow_succ]
    ring

/-! ## C9: candidate evaluation never mutates the population in place -/

/-- C9: both generation steps evaluate the candidate on a copy.  In SA and
in ES alike: the population size is unchanged, every organism other than
the selected one is bit-for-bit unchanged, and when the candidate is
rejected the whole population is exactly what it was before the step. -/
theorem generation_frame (expf : ℚ → ℚ) (tadj p_m : ℚ) (fit : List Bool → ℚ)
    (st : SimState) (org bit : ℕ) (u : ℚ) (draws : ℕ → ℚ) :
    ((SA_generation expf tadj fit st org bit u).1.genotype.length
        = st.genotype.length) ∧
    (∀ j : ℕ, j ≠ org →
      (SA_generation expf tadj fit st org bit u).1.genotype[j]?
        = st.genotype[j]?) ∧
    (¬ (fit (st.genotype.getD org [])
          < fit (Organism.flip (st.genotype.getD org []) bit)
        ∨ u < expf ((fit (Organism.flip (st.genotype.getD org []) bit)
            - fit (st.genotype.getD org [])) / st.temp)) →
      (SA_generation expf tadj fit st org bit u).1.genotype = st.genotype) ∧
    ((ES_generation p_m fit st org draws).genotype.length
        = st.genotype.length) ∧
    (∀ j : ℕ, j ≠ org →
      (ES_generation p_m fit st org draws).genotype[j]? = st.genotype[j]?) ∧
    (¬ fit (st.genotype.getD org [])
          < fit (mutate_all p_m draws (st.genotype.getD org [])) →
      (ES_generation p_m fit st org draws).genotype = st.genotype) := by
  refine ⟨?_, ?_, ?_, ?_, ?_, ?_⟩
  · simp only [SA_generation]
    split
    · simp
    · split
      · simp
      · simp
  · intro j hj
    simp only [SA_generation]
    split
    · exact List.getElem?_set_ne (Ne.symm hj)
    · split
      · exact List.getElem?_set_ne (Ne.symm hj)
      · rfl
  · intro h
    push_neg at h
    simp only [SA_generation]
    rw [if_neg (not_lt.mpr h.1), if_neg (not_lt.mpr h.2)]
  · simp only [ES_generation]
    split
    · simp
    · rfl
  · intro j hj
    simp only [ES_generation]
    split
    · exact List.getElem?_set_ne (Ne.symm hj)
    · rfl
  · intro h
    simp only [ES_generation]
    rw [if_neg h]

/-- C9 witness: concrete two-organism state; the frame facts are obtained
from the theorem and the inner hypotheses are discharged at j = 1. -/
theorem generation_frame_witness :
    ((SA_generation (fun _ => 0) 1 (fun _ => 0)
        (SimState.mk [[true], [false]] 50) 0 0 (1/2)).1.genotype.length
      = (SimState.mk [[true], [false]] 50).genotype.length) ∧
    ((SA_generation (fun _ => 0) 1 (fun _ => 0)
        (SimState.mk [[true], [false]] 50) 0 0 (1/2)).1.genotype[1]?
      = (SimState.mk [[true], [false]] 50).genotype[1]?) ∧
    ((ES_generation (1/2) (fun _ => 0)
        (SimState.mk [[true], [false]] 50) 0 (fun _ => 0)).genotype.length
      = (SimState.mk [[true], [false]] 50).genotype.length) ∧
    ((ES_generation (1/2) (fun _ => 0)
        (SimState.mk [[true], [false]] 50) 0 (fun _ => 0)).genotype[1]?
      = (SimState.mk [[true], [false]] 50).genotype[1]?) ∧
    ((ES_generation (1/2) (fun _ => 0)
        (SimState.mk [[true], [false]] 50) 0 (fun _ => 0)).genotype
      = (SimState.mk [[true], [false]] 50).genotype) := by
  have h := generation_frame (fun _ => 0) 1 (1/2) (fun _ => 0)
    (SimState.mk [[true], [false]] 50) 0 0 (1/2) (fun _ => 0)
  exact ⟨h.1, h.2.1 1 (by decide), h.2.2.2.1, h.2.2.2.2.1 1 (by decide),
    h.2.2.2.2.2 (by norm_num)⟩

/-! ## C10: equal-fitness SA moves are always accepted -/

/-- C10: when the candidate fitness equals the incumbent fitness, the
Boltzmann threshold is exp(0) = 1, so any uniform draw u ∈ [0, 1) passes
and the candidate always replaces the incumbent (and the draw was
consumed, since f1 > f0 failed).  exp 0 = 1 holds exactly for the C
library exp, and the positivity of the temperature required by the claim
is recorded even though the proof only needs exp applied at 0. -/
theorem sa_equal_fitness_accepted (expf : ℚ → ℚ) (tadj : ℚ)
    (fit : List Bool → ℚ) (st : SimState) (org bit : ℕ) (u : ℚ)
    (hexp : expf 0 = 1) (hu0 : 0 ≤ u) (hu1 : u < 1) (htemp : 0 < st.temp)
    (heq : fit (Organism.flip (st.genotype.getD org []) bit)
      = fit (st.genotype.getD org [])) :
    (SA_generation expf tadj fit st org bit u).1.genotype
      = st.genotype.set org (Organism.flip (st.genotype.getD org []) bit) ∧
    (SA_generation expf tadj fit st org bit u).2 = true := by
  have h1 : ¬ fit (st.genotype.getD org [])
      < fit (Organism.flip (st.genotype.getD org []) bit) := by
    rw [heq]
    exact lt_irrefl _
  have h2 : u < expf ((fit (Organism.flip (st.genotype.getD org []) bit)
      - fit (st.genotype.getD org [])) / st.temp) := by
    rw [heq, sub_self, zero_div, hexp]
    exact hu1
  constructor
  · simp only [SA_generation]
    rw [if_neg h1, if_pos h2]
  · simp only [SA_generation]
    rw [if_neg h1, if_pos h2]

/-- C10 witness: constant fitness function, u = 1/2, temperature 50, an
exp model with value 1 at 0; the flip of the only bit is accepted. -/
theorem sa_equal_fitness_accepted_witness :
    (fun _ : ℚ => (1 : ℚ)) 0 = 1 ∧ (0 : ℚ) ≤ 1/2 ∧ (1/2 : ℚ) < 1 ∧
    (0 : ℚ) < (SimState.mk [[true]] 50).temp ∧
    (fun _ : List Bool => (3 : ℚ))
        (Organism.flip ((SimState.mk [[true]] 50).genotype.getD 0 []) 0)
      = (fun _ : List Bool => (3 : ℚ)) ((SimState.mk [[true]] 50).genotype.getD 0 []) ∧
    (SA_generation (fun _ => 1) (995/1000) (fun _ => 3)
        (SimState.mk [[true]] 50) 0 0 (1/2)).1.genotype
      = (SimState.mk [[true]] 50).genotype.set 0
          (Organism.flip ((SimState.mk [[true]] 50).genotype.getD 0 []) 0) ∧
    (SA_generation (fun _ => 1) (995/1000) (fun _ => 3)
        (SimState.mk [[true]] 50) 0 0 (1/2)).2 = true := by
  have h := sa_equal_fitness_accepted (fun _ => 1) (995/1000) (fun _ => 3)
    (SimState.mk [[true]] 50) 0 0 (1/2) rfl (by norm_num) (by norm_num)
    (by norm_num) rfl
  exact ⟨rfl, by norm_num, by norm_num, by norm_num, rfl, h.1, h.2⟩

/-! ## C5: one-max fitness -/

/-- C5: with target a ≤ 2^L - 1 the one-max fitness of an L-bit vector is
(2^L - 1) - |phenotype - a|, it equals the maximum 2^L - 1 exactly when the
phenotype equals a, and with a > 2^L - 1 the assertion fires and no value
is returned. -/
theorem onemax_fitness (a : ℕ) (rep : List Bool → ℕ) (bits : List Bool) :
    (a ≤ 2 ^ bits.length - 1 →
      onemax a rep bits
        = some (((2 : ℚ) ^ bits.length - 1) - |(rep bits : ℚ) - (a : ℚ)|)) ∧
    (a ≤ 2 ^ bits.length - 1 →
      (onemax a rep bits = some ((2 : ℚ) ^ bits.length - 1) ↔ rep bits = a)) ∧
    (2 ^ bits.length - 1 < a → onemax a rep bits = none) := by
  have hpow : (1 : ℕ) ≤ 2 ^ bits.length := Nat.one_le_two_pow
  have hcast : ∀ h : a ≤ 2 ^ bits.length - 1,
      (a : ℚ) ≤ 2 ^ bits.length - 1 := by
    intro h
    have h2 : (a : ℚ) ≤ (2 ^ bits.length - 1 : ℕ) := by exact_mod_cast h
    calc (a : ℚ) ≤ ((2 ^ bits.length - 1 : ℕ) : ℚ) := h2
      _ = 2 ^ bits.length - 1 := by
          push_cast [Nat.cast_sub hpow]
          ring
  refine ⟨fun h => ?_, fun h => ?_, fun h => ?_⟩
  · simp only [onemax]
    rw [if_pos (hcast h)]
  · simp only [onemax]
    rw [if_pos (hcast h)]
    constructor
    · intro hsome
      have habs : |(rep bits : ℚ) - (a : ℚ)| = 0 := by
        have := Option.some_injective _ hsome
        linarith
      have : (rep bits : ℚ) = (a : ℚ) := by
        have := abs_eq_zero.mp habs
        linarith
      exact_mod_cast this
    · intro hrep
      rw [hrep, sub_self, abs_zero, sub_zero]
  · simp only [onemax]
    rw [if_neg]
    intro hle
    have h2 : ((2 ^ bits.length - 1 : ℕ) : ℚ) = 2 ^ bits.length - 1 := by
      push_cast [Nat.cast_sub hpow]
      ring
    rw [← h2] at hle
    have : a ≤ 2 ^ bits.length - 1 := by exact_mod_cast hle
    omega

/-- C5 witness: L = 3, a = 4, a representation placing the phenotype at 4:
the fitness is the maximum 7, and the maximum characterizes phenotype 4. -/
theorem onemax_fitness_witness :
    (4 ≤ 2 ^ [true, false, false].length - 1 →
      onemax 4 (fun _ => 4) [true, false, false]
        = some (((2 : ℚ) ^ [true, false, false].length - 1)
            - |((fun (_ : List Bool) => (4 : ℕ)) [true, false, false] : ℚ) - (4 : ℚ)|)) ∧
    (4 ≤ 2 ^ [true, false, false].length - 1 →
      (onemax 4 (fun _ => 4) [true, false, false]
          = some ((2 : ℚ) ^ [true, false, false].length - 1)
        ↔ (fun (_ : List Bool) => (4 : ℕ)) [true, false, false] = 4)) ∧
    (2 ^ [true, false, false].length - 1 < 4 →
      onemax 4 (fun _ => 4) [true, false, false] = none) :=
  onemax_fitness 4 (fun _ => 4) [true, false, false]

/-! ## C6: totalFitness truncates every partial sum -/

/-- Truncation toward zero agrees with floor on nonnegative rationals. -/
lemma truncRat_of_nonneg (q : ℚ) (h : 0 ≤ q) : truncRat q = ⌊q⌋ := by
  rw [truncRat, Rat.floor_def]
  exact Int.tdiv_eq_ediv (Rat.num_nonneg.mpr h) (Int.natCast_nonneg q.den)

/-- C6 is refuted by the code: Sim::fitness and SA::fitness call
std::accumulate with the int literal 0 as initial value, so the double
returned by the lambda is converted back to int after every organism.
With two organisms of fitness 0.5 the code computes 0 while the exact sum
of fitness values is 1; even one organism of fitness 0.5 yields 0 instead
of 0.5.  The lambda's own parameter type (double sum) and the declared
double return type of the method show the exact sum is the intent, so the
code, not the claim, is wrong. -/
theorem fitness_truncates_partial_sums :
    Sim.fitness (fun _ => 1/2) [[], []] = 0 ∧
    totalFitness (fun _ => 1/2) [[], []] = 1 ∧
    Sim.fitness (fun _ => 1/2) [[]] = 0 ∧
    totalFitness (fun _ => 1/2) [[]] = 1/2 := by
  have khalf : truncRat (1/2) = 0 := by
    rw [truncRat_of_nonneg _ (by norm_num), Int.floor_eq_zero_iff]
    constructor <;> norm_num
  refine ⟨?_, ?_, ?_, ?_⟩
  · simp only [Sim.fitness, List.foldl]
    norm_num [khalf]
  · simp only [totalFitness, List.map, List.sum_cons, List.sum_nil]
    norm_num
  · simp only [Sim.fitness, List.foldl]
    norm_num [khalf]
  · simp only [totalFitness, List.map, List.sum_cons, List.sum_nil]
    norm_num

/-! ## C7: the validator accepts exactly the permutations of 0..2^L - 1 -/

/-- C7: a lookup table of size 2^L passes is_representation exactly when
it is a permutation of the integers 0, ..., 2^L - 1, equivalently when it
has no duplicate entry and no out-of-range entry. -/
theorem is_representation_iff (L : ℕ) (rep : List ℕ)
    (hlen : rep.length = 2 ^ L) :
    is_representation (2 ^ L) rep = true
      ↔ (rep.Nodup ∧ ∀ x ∈ rep, x < 2 ^ L) := by
  simp only [is_representation, decide_eq_true_eq]
  constructor
  · intro hperm
    refine ⟨hperm.nodup_iff.mpr (List.nodup_range _), fun x hx => ?_⟩
    have := hperm.mem_iff.mp hx
    exact List.mem_range.mp this
  · rintro ⟨hnd, hbound⟩
    have hsub : rep ⊆ List.range (2 ^ L) := fun x hx =>
      List.mem_range.mpr (hbound x hx)
    have hsp := List.subperm_of_subset hnd hsub
    exact hsp.perm_of_length_le (by rw [hlen, List.length_range])

/-- C7 witness: the two example tables for L = 3: the permutation
{5,4,1,6,7,3,0,2} is accepted and {5,4,1,6,7,3,0,0} (entry 0 duplicated)
is rejected. -/
theorem is_representation_iff_witness :
    is_representation (2 ^ 3) [5, 4, 1, 6, 7, 3, 0, 2] = true ∧
    is_representation (2 ^ 3) [5, 4, 1, 6, 7, 3, 0, 0] ≠ true := by
  constructor
  · exact (is_representation_iff 3 [5, 4, 1, 6, 7, 3, 0, 2] (by decide)).mpr
      (by decide)
  · intro h
    have := (is_representation_iff 3 [5, 4, 1, 6, 7, 3, 0, 0] (by decide)).mp h
    revert this
    decide


/-! ## C4: both encodings are bijections onto [0, 2^L) -/

lemma std_binary_foldr_snd (bits : List Bool) :
    (bits.foldr (fun b s => (s.1 + ((if b then 1 else 0) <<< s.2), s.2 + 1))
      ((0 : ℕ), (0 : ℕ))).2 = bits.length := by
  induction bits with
  | nil => rfl
  | cons b l ih =>
    simp only [List.foldr_cons, List.length_cons]
    rw [ih]

lemma std_binary_rep_nil : std_binary_rep [] = 0 := rfl

lemma std_binary_rep_cons (b : Bool) (l : List Bool) :
    std_binary_rep (b :: l)
      = std_binary_rep l + (if b then 2 ^ l.length else 0) := by
  simp only [std_binary_rep, List.foldr_cons]
  rw [std_binary_foldr_snd]
  cases b <;> simp [Nat.shiftLeft_eq]

lemma std_binary_rep_lt (l : List Bool) : std_binary_rep l < 2 ^ l.length := by
  induction l with
  | nil => simp [std_binary_rep_nil]
  | cons b l ih =>
    rw [std_binary_rep_cons, List.length_cons, pow_succ]
    cases b <;> simp <;> omega

lemma toBits_length (L n : ℕ) : (toBits L n).length = L := by
  induction L generalizing n with
  | zero => rfl
  | succ L ih => simp [toBits, ih]

lemma std_binary_rep_toBits (L n : ℕ) (h : n < 2 ^ L) :
    std_binary_rep (toBits L n) = n := by
  induction L generalizing n with
  | zero =>
    simp only [pow_zero, Nat.lt_one_iff] at h
    simp [toBits, std_binary_rep_nil, h]
  | succ L ih =>
    have hmod : n % 2 ^ L < 2 ^ L := Nat.mod_lt _ (by positivity)
    rw [toBits, std_binary_rep_cons, ih _ hmod, toBits_length]
    rw [pow_succ] at h
    by_cases hc : 2 ^ L ≤ n
    · rw [if_pos (by simpa using hc)]
      have hsub : n % 2 ^ L = n - 2 ^ L := by
        rw [Nat.mod_eq_sub_mod hc, Nat.mod_eq_of_lt (by omega)]
      omega
    · rw [if_neg (by simpa using hc), Nat.mod_eq_of_lt (by omega)]
      omega

lemma toBits_std_binary_rep (l : List Bool) :
    toBits l.length (std_binary_rep l) = l := by
  induction l with
  | nil => rfl
  | cons b l ih =>
    have hlt := std_binary_rep_lt l
    rw [List.length_cons, std_binary_rep_cons, toBits]
    cases b
    · simp only [Bool.false_eq_true, if_false, Nat.add_zero]
      rw [decide_eq_false (not_le.mpr hlt), Nat.mod_eq_of_lt hlt, ih]
    · simp only [if_true]
      rw [decide_eq_true (Nat.le_add_left _ _), Nat.add_mod_right,
        Nat.mod_eq_of_lt hlt, ih]

/-- Arithmetic form of the brg_rep loop body. -/
def gray_step (ret : ℕ) (b : Bool) : ℕ :=
  2 * ret + (if b then 1 - ret % 2 else ret % 2)

lemma two_mul_lor_one (r : ℕ) : 2 * r ||| 1 = 2 * r + 1 := by
  have h := Nat.lor_bit false r true 0
  simpa [Nat.bit_val] using h

lemma brg_step_eq (ret : ℕ) (b : Bool) : brg_step ret b = gray_step ret b := by
  have hshift : ret <<< 1 = 2 * ret := by
    rw [Nat.shiftLeft_eq, pow_one, Nat.mul_comm]
  rcases Nat.mod_two_eq_zero_or_one ret with h | h <;>
    cases b <;>
      simp [brg_step, gray_step, hshift, Nat.and_one_is_mod, h, two_mul_lor_one]

/-- Running value of the whole Gray decoding loop, started from 0; the
first iteration from 0 produces exactly the first bit, so this agrees with
brg_rep on every nonempty list. -/
def grayVal (l : List Bool) : ℕ := l.foldl gray_step 0

lemma foldl_brg_step_eq (l : List Bool) (a : ℕ) :
    l.foldl brg_step a = l.foldl gray_step a := by
  induction l generalizing a with
  | nil => rfl
  | cons b l ih => rw [List.foldl_cons, List.foldl_cons, brg_step_eq, ih]

lemma brg_rep_eq_grayVal (l : List Bool) : brg_rep l = grayVal l := by
  cases l with
  | nil => rfl
  | cons b rest =>
    rw [brg_rep, grayVal, List.foldl_cons, foldl_brg_step_eq]
    congr 1
    cases b <;> simp [gray_step]

lemma grayVal_append (l : List Bool) (b : Bool) :
    grayVal (l ++ [b]) = gray_step (grayVal l) b := by
  simp [grayVal, List.foldl_append]

lemma gray_step_le (ret : ℕ) (b : Bool) : gray_step ret b ≤ 2 * ret + 1 := by
  rcases Nat.mod_two_eq_zero_or_one ret with h | h <;>
    cases b <;> simp [gray_step, h]

lemma grayVal_lt (l : List Bool) : grayVal l < 2 ^ l.length := by
  induction l using List.reverseRecOn with
  | nil => simp [grayVal]
  | append_singleton l b ih =>
    rw [grayVal_append, List.length_append, List.length_singleton, pow_succ]
    have := gray_step_le (grayVal l) b
    omega

lemma fromGray_length (L n : ℕ) : (fromGray L n).length = L := by
  induction L generalizing n with
  | zero => rfl
  | succ L ih => simp [fromGray, ih]

lemma grayVal_fromGray (L n : ℕ) (h : n < 2 ^ L) :
    grayVal (fromGray L n) = n := by
  induction L generalizing n with
  | zero =>
    simp only [pow_zero, Nat.lt_one_iff] at h
    simp [fromGray, grayVal, h]
  | succ L ih =>
    have hdiv : n / 2 < 2 ^ L := by
      rw [pow_succ] at h
      omega
    rw [fromGray, grayVal_append, ih _ hdiv, gray_step]
    rcases Nat.mod_two_eq_zero_or_one (n / 2) with h1 | h1 <;>
      rcases Nat.mod_two_eq_zero_or_one n with h2 | h2 <;>
        simp [h1, h2] <;> omega

lemma fromGray_grayVal (l : List Bool) :
    fromGray l.length (grayVal l) = l := by
  induction l using List.reverseRecOn with
  | nil => rfl
  | append_singleton l b ih =>
    rw [List.length_append, List.length_singleton, grayVal_append, fromGray]
    have hx : (if b then 1 - grayVal l % 2 else grayVal l % 2) ≤ 1 := by
      cases b <;> simp <;> omega
    have hdiv : gray_step (grayVal l) b / 2 = grayVal l := by
      rw [gray_step]; omega
    have hmod : gray_step (grayVal l) b % 2
        = (if b then 1 - grayVal l % 2 else grayVal l % 2) := by
      rw [gray_step]; omega
    rw [hdiv, hmod, ih]
    congr 1
    rcases Nat.mod_two_eq_zero_or_one (grayVal l) with h1 | h1 <;>
      cases b <;> simp [h1]

lemma brg_rep_lt (l : List Bool) : brg_rep l < 2 ^ l.length := by
  rw [brg_rep_eq_grayVal]
  exact grayVal_lt l

lemma brg_rep_fromGray (L n : ℕ) (h : n < 2 ^ L) :
    brg_rep (fromGray L n) = n := by
  rw [brg_rep_eq_grayVal]
  exact grayVal_fromGray L n h

lemma fromGray_brg_rep (l : List Bool) :
    fromGray l.length (brg_rep l) = l := by
  rw [brg_rep_eq_grayVal]
  exact fromGray_grayVal l

/-- C4: for every genome length L ≥ 1, the standard-binary encoding and
the binary-reflected-Gray encoding are both bijections from the L-bit
vectors onto the integer interval [0, 2^L). -/
theorem representations_bijective (L : ℕ) (hL : 1 ≤ L) :
    Set.BijOn std_binary_rep {l : List Bool | l.length = L}
      (Set.Iio (2 ^ L)) ∧
    Set.BijOn brg_rep {l : List Bool | l.length = L} (Set.Iio (2 ^ L)) := by
  constructor
  · refine ⟨fun l hl => ?_, fun a ha b hb hab => ?_, fun n hn => ?_⟩
    · rw [Set.mem_setOf_eq] at hl
      rw [Set.mem_Iio, ← hl]
      exact std_binary_rep_lt l
    · rw [Set.mem_setOf_eq] at ha hb
      have h1 := toBits_std_binary_rep a
      rw [ha, hab, ← hb, toBits_std_binary_rep b] at h1
      exact h1.symm
    · rw [Set.mem_Iio] at hn
      exact ⟨toBits L n, by rw [Set.mem_setOf_eq]; exact toBits_length L n,
        std_binary_rep_toBits L n hn⟩
  · refine ⟨fun l hl => ?_, fun a ha b hb hab => ?_, fun n hn => ?_⟩
    · rw [Set.mem_setOf_eq] at hl
      rw [Set.mem_Iio, ← hl]
      exact brg_rep_lt l
    · rw [Set.mem_setOf_eq] at ha hb
      have h1 := fromGray_brg_rep a
      rw [ha, hab, ← hb, fromGray_brg_rep b] at h1
      exact h1.symm
    · rw [Set.mem_Iio] at hn
      exact ⟨fromGray L n, by rw [Set.mem_setOf_eq]; exact fromGray_length L n,
        brg_rep_fromGray L n hn⟩

/-- C4 witness: the bijection statement instantiated at L = 3, the length
used by the example tables of the repository. -/
theorem representations_bijective_witness :
    1 ≤ 3 ∧
    (Set.BijOn std_binary_rep {l : List Bool | l.length = 3}
        (Set.Iio (2 ^ 3)) ∧
      Set.BijOn brg_rep {l : List Bool | l.length = 3} (Set.Iio (2 ^ 3))) :=
  ⟨by norm_num, representations_bijective 3 (by norm_num)⟩

/-! ## C8: the reported mean generation-to-optimum -/

lemma firstPassage_false (rest : List Bool) :
    firstPassage (false :: rest) = (firstPassage rest).map (· + 1) := rfl

lemma firstPassage_true (rest : List Bool) :
    firstPassage (true :: rest) = some 1 := rfl

lemma firstPassage_ge_one (obs : List Bool) (k : ℕ)
    (h : firstPassage obs = some k) : 1 ≤ k := by
  induction obs generalizing k with
  | nil => simp [firstPassage] at h
  | cons b rest ih =>
    cases b
    · rw [firstPassage_false] at h
      rcases Option.map_eq_some'.mp h with ⟨k', hk', rfl⟩
      omega
    · rw [firstPassage_true] at h
      injection h with h
      omega

lemma firstPassage_le_length (obs : List Bool) (k : ℕ)
    (h : firstPassage obs = some k) : k ≤ obs.length := by
  induction obs generalizing k with
  | nil => simp [firstPassage] at h
  | cons b rest ih =>
    cases b
    · rw [firstPassage_false] at h
      rcases Option.map_eq_some'.mp h with ⟨k', hk', rfl⟩
      have := ih k' hk'
      rw [List.length_cons]
      omega
    · rw [firstPassage_true] at h
      injection h with h
      rw [List.length_cons]
      omega

lemma recordGen_of_le (obs : List Bool) (g gens : ℕ) (h : gens ≤ g) :
    recordGen obs g gens = gens := by
  induction obs generalizing g with
  | nil => rfl
  | cons b rest ih =>
    simp only [recordGen]
    rw [if_neg (fun hc => absurd hc.2 (not_lt.mpr h))]
    exact ih (g + 1) (by omega)

lemma recordGen_none (obs : List Bool) (g gens : ℕ)
    (h : firstPassage obs = none) : recordGen obs g gens = gens := by
  induction obs generalizing g with
  | nil => rfl
  | cons b rest ih =>
    cases b
    · rw [firstPassage_false, Option.map_eq_none'] at h
      simp only [recordGen]
      rw [if_neg (by simp)]
      exact ih (g + 1) h
    · rw [firstPassage_true] at h
      exact absurd h (by simp)

lemma recordGen_some (obs : List Bool) (g gens k : ℕ)
    (h : firstPassage obs = some k) :
    recordGen obs g gens
      = if g + (k - 1) < gens then g + (k - 1) else gens := by
  induction obs generalizing g gens k with
  | nil => simp [firstPassage] at h
  | cons b rest ih =>
    cases b
    · rw [firstPassage_false] at h
      rcases Option.map_eq_some'.mp h with ⟨k', hk', rfl⟩
      have hk1 := firstPassage_ge_one rest k' hk'
      simp only [recordGen]
      rw [if_neg (by simp)]
      rw [ih (g + 1) gens k' hk']
      have harith : g + 1 + (k' - 1) = g + (k' + 1 - 1) := by omega
      rw [harith]
    · rw [firstPassage_true] at h
      injection h with h
      subst h
      simp only [recordGen, Nat.add_zero, Nat.sub_self]
      by_cases hg : g < gens
      · rw [if_pos (by exact ⟨by simp, hg⟩), recordGen_of_le rest (g + 1) g (by omega),
          if_pos hg]
      · rw [if_neg (fun hc => hg hc.2),
          recordGen_of_le rest (g + 1) gens (by omega), if_neg hg]

lemma trialGen_none (G : ℕ) (obs : List Bool)
    (h : firstPassage obs = none) : trialGen G obs = G :=
  recordGen_none obs 1 G h

lemma trialGen_some (G : ℕ) (obs : List Bool) (k : ℕ)
    (hlen : obs.length = G) (h : firstPassage obs = some k) :
    trialGen G obs = min k G := by
  have hk1 := firstPassage_ge_one obs k h
  have hkle : k ≤ G := hlen ▸ firstPassage_le_length obs k h
  rw [trialGen, recordGen_some obs 1 G k h]
  have harith : 1 + (k - 1) = k := by omega
  rw [harith]
  by_cases hlt : k < G
  · rw [if_pos hlt, min_eq_left hlt.le]
  · rw [if_neg hlt, min_eq_right (by omega)]

lemma completed_eq (G : ℕ) (trials : List (List Bool))
    (h : ∀ obs ∈ trials, obs.length = G) :
    (trials.map (trialGen G)).filter (fun g => decide (g < G))
      = (trials.filterMap firstPassage).filter (fun k => decide (k < G)) := by
  induction trials with
  | nil => rfl
  | cons obs rest ih =>
    have hlen : obs.length = G := h obs (List.mem_cons_self _ _)
    have hrest := ih (fun o ho => h o (List.mem_cons_of_mem _ ho))
    simp only [List.map_cons, List.filterMap_cons]
    cases hfp : firstPassage obs with
    | none =>
      rw [trialGen_none G obs hfp, List.filter_cons]
      simp only [decide_eq_true_eq, lt_irrefl, if_false]
      exact hrest
    | some k =>
      have hk1 := firstPassage_ge_one obs k hfp
      have hkle : k ≤ G := hlen ▸ firstPassage_le_length obs k hfp
      rw [trialGen_some G obs k hlen hfp, List.filter_cons, List.filter_cons]
      by_cases hlt : k < G
      · rw [min_eq_left hlt.le]
        simp only [decide_eq_true_eq, hlt, if_true]
        rw [hrest]
      · rw [min_eq_right (by omega)]
        simp only [decide_eq_true_eq, lt_irrefl, if_false, hlt]
        exact hrest

/-- C8 counterexample: budget G = 2, two trials; trial A is observed
optimal at generation 1, trial B first at generation 2 = G.  Both trials
reached the optimum within the budget, so the claim makes the reported
mean (1 + 2) / 2 = 3/2, but the recording condition g < gens[i] (with
gens[i] initialized to the sentinel G) never records a first passage equal
to G, so the code reports 1: the trial first observed optimal at the
final generation is conflated with the never-reached sentinel. -/
theorem meanGenToOpt_boundary_counterexample :
    meanGenToOpt 2 [[true, false], [false, true]] = some 1 ∧
    meanGenToOpt_spec 2 [[true, false], [false, true]] = some (3/2) ∧
    (1 : ℚ) ≠ 3/2 := by
  refine ⟨?_, ?_, by norm_num⟩
  · have h1 : trialGen 2 [true, false] = 1 := rfl
    have h2 : trialGen 2 [false, true] = 2 := rfl
    simp only [meanGenToOpt, List.map_cons, List.map_nil, h1, h2]
    norm_num
  · have h1 : firstPassage [true, false] = some 1 := rfl
    have h2 : firstPassage [false, true] = some 2 := rfl
    simp only [meanGenToOpt_spec, List.filterMap_cons, List.filterMap_nil,
      h1, h2]
    norm_num

/-- C8 amended: the reported mean is the arithmetic mean of the recorded
first-passage generations over exactly those trials whose first observed
passage is strictly below the generation budget G (a trial whose first
passage is exactly G is conflated with the never-reached sentinel and
excluded); recording is first-write-wins: the recorded value of a trial
with first passage k < G is k itself, the first generation at which the
trial was observed optimal, and a trial never observed optimal keeps the
sentinel G. -/
theorem meanGenToOpt_characterization (G : ℕ) (trials : List (List Bool))
    (h : ∀ obs ∈ trials, obs.length = G) :
    (∀ obs ∈ trials, firstPassage obs = none → trialGen G obs = G) ∧
    (∀ obs ∈ trials, ∀ k, firstPassage obs = some k →
      trialGen G obs = min k G) ∧
    meanGenToOpt G trials
      = (if ((trials.filterMap firstPassage).filter
              (fun k => decide (k < G))).length = 0
          then none
          else some
            ((((trials.filterMap firstPassage).filter
                (fun k => decide (k < G))).sum : ℚ)
              / (((trials.filterMap firstPassage).filter
                (fun k => decide (k < G))).length : ℚ))) := by
  refine ⟨fun obs _ hfp => trialGen_none G obs hfp,
    fun obs hobs k hfp => trialGen_some G obs k (h obs hobs) hfp, ?_⟩
  simp only [meanGenToOpt]
  rw [completed_eq G trials h]

/-- C8 amended witness: G = 3 with one trial first optimal at generation
2 and one trial never optimal; the mean is 2/1 = 2. -/
theorem meanGenToOpt_characterization_witness :
    (∀ obs ∈ [[false, true, false], [false, false, false]],
      obs.length = 3) ∧
    ((∀ obs ∈ [[false, true, false], [false, false, false]],
        firstPassage obs = none → trialGen 3 obs = 3) ∧
      (∀ obs ∈ [[false, true, false], [false, false, false]],
        ∀ k, firstPassage obs = some k → trialGen 3 obs = min k 3) ∧
      meanGenToOpt 3 [[false, true, false], [false, false, false]]
        = (if (([[false, true, false], [false, false, false]].filterMap
                firstPassage).filter (fun k => decide (k < 3))).length = 0
            then none
            else some
              (((([[false, true, false], [false, false, false]].filterMap
                  firstPassage).filter (fun k => decide (k < 3))).sum : ℚ)
                / ((([[false, true, false], [false, false, false]].filterMap
                  firstPassage).filter (fun k => decide (k < 3))).length : ℚ)))) :=
  ⟨by decide, meanGenToOpt_characterization 3
    [[false, true, false], [false, false, false]] (by decide)⟩
